import Mathlib

/-!
Shallow embedding of `src/mellowmax_softmax/envs/simple_mdp.py` (class
`SimpleMDP`, a gym environment for the two-state MDP of Asadi & Littman).

Modelling conventions:
* NumPy float64 literals of the source are modelled as exact rationals.
* The NumPy generator `self.np_random` is modelled as a stream of uniform
  draws `u_k` together with a cursor.  `np_random.choice(2, p=[p0, p1])`
  draws one `u ∈ [0, 1)` and returns `searchsorted(cumsum p, u, side=right)`;
  for `u ∈ [0, 1)` and `p0 + p1 = 1` this index is `0` when `u < p0` and `1`
  otherwise, which is how `choice2` below computes it.  Theorems that need
  sampled indices to respect the distribution assume `Rng.Valid` (all draws
  lie in `[0, 1)`), which is NumPy's contract for the uniform source.
* Python attribute mutation is modelled functionally: `step` and `reset`
  return the successor engine.  The two `assert` statements at the top of
  `step` run before any field is written, so on failure `step` returns the
  engine unchanged together with the error.
* The `logger.warn` call in `step` is modelled by the Boolean field
  `StepOut.warned` of the result (true exactly when the source emits the
  post-terminal warning); the `info` dict returned by `step` is always
  empty in the source and is omitted.
-/

namespace MellowmaxSoftmax

/-- The pseudo-random source backing `self.np_random`: a stream of uniform
draws and the index of the next draw. -/
structure Rng where
  stream : ℕ → ℚ
  idx : ℕ

/-- Consume one uniform draw. -/
def Rng.next (g : Rng) : ℚ × Rng := (g.stream g.idx, ⟨g.stream, g.idx + 1⟩)

/-- NumPy's contract for the uniform source: every draw lies in `[0, 1)`. -/
def Rng.Valid (g : Rng) : Prop := ∀ k, 0 ≤ g.stream k ∧ g.stream k < 1

/-- `self.np_random.choice(2, p=[p.1, p.2])` (source line 83): one uniform
draw, inverse-CDF selection of the sampled index (see the header comment). -/
def choice2 (p : ℚ × ℚ) (g : Rng) : Fin 2 × Rng :=
  (if (g.next).1 < p.1 then 0 else 1, (g.next).2)

/-- The hardcoded tensor `self.transition` of `SimpleMDP.__init__`
(source lines 62-63): `[[[0.66, 0.34], [0.99, 0.01]], [[0, 1], [0, 1]]]`,
row `(s, a)` returned as the pair `(P[s][a][0], P[s][a][1])`. -/
def canonicalTransition (s a : Fin 2) : ℚ × ℚ :=
  if s = 0 then
    (if a = 0 then (66/100, 34/100) else (99/100, 1/100))
  else (0, 1)

/-- The dict `self.P` of `SimpleMDP.__init__` (source lines 65-74): for each
`(s, a)` the list of tuples `(probability, next state, reward, done)`. -/
def canonicalP (s a : Fin 2) : List (ℚ × ℕ × ℚ × Bool) :=
  if s = 0 then
    (if a = 0 then [(66/100, 0, 122/1000, false), (34/100, 1, 122/1000, true)]
     else [(99/100, 0, 33/1000, false), (1/100, 1, 33/1000, true)])
  else [(0, 0, 0, false), (1, 1, 0, true)]

/-- The hardcoded matrix `self.reward` of `SimpleMDP.__init__`
(source line 76): `[[0.122, 0.033], [0.0, 0.0]]`. -/
def canonicalReward (s a : Fin 2) : ℚ :=
  if s = 0 then (if a = 0 then 122/1000 else 33/1000) else 0

/-- The fields of a `SimpleMDP` instance.  `state` and `steps_beyond_done`
are `None` (`none`) before the first `reset` / before termination. -/
@[ext]
structure SimpleMDP where
  transition : Fin 2 → Fin 2 → ℚ × ℚ
  P : Fin 2 → Fin 2 → List (ℚ × ℕ × ℚ × Bool)
  reward : Fin 2 → Fin 2 → ℚ
  state : Option (Fin 2)
  steps_beyond_done : Option ℕ
  np_random : Rng

/-- `SimpleMDP.__init__` (source lines 55-77): unconditionally installs the
hardcoded model and unset episode fields.  It takes no model argument and
performs no validation.  `g` stands for the generator gym creates lazily. -/
def SimpleMDP.init (g : Rng) : SimpleMDP :=
  { transition := canonicalTransition
    P := canonicalP
    reward := canonicalReward
    state := none
    steps_beyond_done := none
    np_random := g }

/-- The two `assert` failures at the top of `step`: action outside
`Discrete(2)` (source line 80), or `state is None` (source line 81). -/
inductive StepErr where
  | invalidAction
  | notReset
deriving DecidableEq

/-- The observable result of one successful `step` call: the returned
observation / reward / done flag, plus whether `logger.warn` fired. -/
structure StepOut where
  obs : ℕ
  reward : ℚ
  done : Bool
  warned : Bool
deriving DecidableEq

/-- `SimpleMDP.step` (source lines 79-104).  Returns the call's outcome and
the successor engine (the engine itself when an assert fires, since both
asserts precede every field write). -/
def SimpleMDP.step (env : SimpleMDP) (action : ℤ) :
    Except StepErr StepOut × SimpleMDP :=
  if 0 ≤ action ∧ action < 2 then
    match env.state with
    | none => (.error .notReset, env)
    | some s =>
      let a : Fin 2 := ⟨action.toNat % 2, Nat.mod_lt _ (by omega)⟩
      let draw := choice2 (env.transition s a) env.np_random
      let s' : Fin 2 := draw.1
      let g' : Rng := draw.2
      let r : ℚ := env.reward s' a
      if s' = 1 then
        match env.steps_beyond_done with
        | none =>
            (.ok ⟨s'.val, r, true, false⟩,
             { env with state := some s', steps_beyond_done := some 0,
                        np_random := g' })
        | some k =>
            (.ok ⟨s'.val, 0, true, decide (k = 0)⟩,
             { env with state := some s', steps_beyond_done := some (k + 1),
                        np_random := g' })
      else
        (.ok ⟨s'.val, r, false, false⟩,
         { env with state := some s', np_random := g' })
  else (.error .invalidAction, env)

/-- `SimpleMDP.reset` (source lines 106-120) with the default
`return_info=False`: reseed the generator when a seed is supplied (`sd` is
NumPy's seed-to-generator map, left abstract), set the state to the start
state 0, clear `steps_beyond_done`, return the start observation. -/
def SimpleMDP.reset (env : SimpleMDP) (sd : ℕ → Rng) (seed : Option ℕ) :
    ℕ × SimpleMDP :=
  let g : Rng := match seed with
    | some k => sd k
    | none => env.np_random
  (0, { env with state := some 0, steps_beyond_done := none, np_random := g })

/-- Issue a sequence of `step` calls, collecting the successful outcomes;
a raised assert aborts the run (the Python exception propagates). -/
def SimpleMDP.run : SimpleMDP → List ℤ → List StepOut
  | _, [] => []
  | env, a :: as =>
    match env.step a with
    | (.error _, _) => []
    | (.ok out, env') => out :: env'.run as

/-- The engine left behind by a sequence of `step` calls (stopping where a
raised assert would abort the run). -/
def SimpleMDP.runEnv : SimpleMDP → List ℤ → SimpleMDP
  | env, [] => env
  | env, a :: as =>
    match env.step a with
    | (.error _, e) => e
    | (.ok _, env') => env'.runEnv as

/-- Number of `done = true` outcomes in a list of step results. -/
def doneCount (l : List StepOut) : ℕ := (l.filter fun o => o.done).length

/-- Number of outcomes in which the post-terminal warning fired. -/
def warnCount (l : List StepOut) : ℕ := (l.filter fun o => o.warned).length

/-- Given the `done` flags of a run that starts with `d` terminal arrivals
already seen, the warning pattern the spec describes: a call warns exactly
when precisely one `done = true` call precedes it in the episode. -/
def expectedWarns (d : ℕ) : List Bool → List Bool
  | [] => []
  | b :: bs => decide (d = 1) :: expectedWarns (if b then d + 1 else d) bs

/-! ### Helper lemmas -/

/-- Consuming a draw keeps the stream, hence keeps validity. -/
lemma Rng.Valid.next {g : Rng} (h : g.Valid) : (g.next).2.Valid := h

/-- `choice2` spelled out on the draw it consumes. -/
lemma choice2_eq (p : ℚ × ℚ) (g : Rng) :
    choice2 p g = (if g.stream g.idx < p.1 then 0 else 1, ⟨g.stream, g.idx + 1⟩) :=
  rfl

/-- Row `s = 1` of the hardcoded tensor: all mass on state 1, for both
actions. -/
lemma canonicalTransition_one (a : Fin 2) : canonicalTransition 1 a = (0, 1) :=
  rfl

/-- Row `s = 1` of the hardcoded reward matrix is zero. -/
lemma canonicalReward_one (a : Fin 2) : canonicalReward 1 a = 0 := rfl

/-- A successful `step` call, spelled out: sampled next state, successor
generator, and the two post-terminal branches of the source. -/
lemma step_some_char (env : SimpleMDP) (a : ℤ) (s : Fin 2)
    (ha : 0 ≤ a ∧ a < 2) (hs : env.state = some s) :
    env.step a =
      (let act : Fin 2 := ⟨a.toNat % 2, Nat.mod_lt _ (by omega)⟩
       let s' : Fin 2 :=
         if env.np_random.stream env.np_random.idx < (env.transition s act).1
         then 0 else 1
       let g' : Rng := ⟨env.np_random.stream, env.np_random.idx + 1⟩
       if s' = 1 then
         match env.steps_beyond_done with
         | none =>
             (.ok ⟨s'.val, env.reward s' act, true, false⟩,
              { env with state := some s', steps_beyond_done := some 0,
                         np_random := g' })
         | some k =>
             (.ok ⟨s'.val, 0, true, decide (k = 0)⟩,
              { env with state := some s', steps_beyond_done := some (k + 1),
                         np_random := g' })
       else
         (.ok ⟨s'.val, env.reward s' act, false, false⟩,
          { env with state := some s', np_random := g' })) := by
  simp only [SimpleMDP.step, if_pos ha, hs, choice2_eq, Rng.next]

/-- A single `step` call never writes the `transition`, `P` or `reward`
fields, in every branch of the source. -/
lemma step_preserves_model (env : SimpleMDP) (a : ℤ) :
    (env.step a).2.transition = env.transition ∧
    (env.step a).2.P = env.P ∧
    (env.step a).2.reward = env.reward := by
  unfold SimpleMDP.step
  repeat' split
  all_goals simp
  all_goals split <;> simp

/-- The engine after `reset`, spelled out. -/
lemma reset_env (env : SimpleMDP) (sd : ℕ → Rng) (seed : Option ℕ) :
    (env.reset sd seed).2 =
      { env with
          state := some 0
          steps_beyond_done := none
          np_random := match seed with
            | some k => sd k
            | none => env.np_random } := rfl

/-- A whole run of `step` calls never writes the `transition`, `P` or
`reward` fields. -/
lemma runEnv_preserves_model (acts : List ℤ) (env : SimpleMDP) :
    (env.runEnv acts).transition = env.transition ∧
    (env.runEnv acts).P = env.P ∧
    (env.runEnv acts).reward = env.reward := by
  induction acts generalizing env with
  | nil => exact ⟨rfl, rfl, rfl⟩
  | cons a as ih =>
    obtain ⟨h1, h2, h3⟩ := step_preserves_model env a
    cases hstep : env.step a with
    | mk res env' =>
      rw [hstep] at h1 h2 h3
      cases res with
      | error e => simpa [SimpleMDP.runEnv, hstep] using ⟨h1, h2, h3⟩
      | ok out =>
        obtain ⟨g1, g2, g3⟩ := ih env'
        simpa [SimpleMDP.runEnv, hstep] using
          ⟨g1.trans h1, g2.trans h2, g3.trans h3⟩

/-- A concrete generator whose draws are all `1/2` (valid uniforms). -/
def rngHalf : Rng := ⟨fun _ => 1/2, 0⟩

lemma rngHalf_valid : rngHalf.Valid := fun _ => by norm_num [rngHalf]

/-- A concrete engine parked in the terminal state with the counter at 0
(the situation right after an episode terminates). -/
def termEnvHalf : SimpleMDP :=
  { SimpleMDP.init rngHalf with state := some 1, steps_beyond_done := some 0 }

/-- Episode invariant for runs that start from a fresh `reset`: the engine
carries the hardcoded tensor, and `d` counts the `done = true` results so
far — either `d = 0` (still in the start state, counter unset) or `d ≥ 1`
(parked in the terminal state with `steps_beyond_done = d - 1`). -/
def EpisodeInv (env : SimpleMDP) (d : ℕ) : Prop :=
  env.transition = canonicalTransition ∧
  ((d = 0 ∧ env.state = some 0 ∧ env.steps_beyond_done = none) ∨
   (1 ≤ d ∧ env.state = some 1 ∧ env.steps_beyond_done = some (d - 1)))

/-- One step preserves the episode invariant, and the warning fires exactly
when the call is the second one to see the terminal state (`d = 1`). -/
lemma step_inv (env : SimpleMDP) (d : ℕ) (a : ℤ)
    (ha : 0 ≤ a ∧ a < 2) (hg : env.np_random.Valid) (hinv : EpisodeInv env d) :
    ∃ out env', env.step a = (.ok out, env') ∧
      env'.np_random.Valid ∧
      EpisodeInv env' (if out.done then d + 1 else d) ∧
      (out.done = false → d = 0) ∧
      out.warned = decide (d = 1) := by
  obtain ⟨hT, hcase⟩ := hinv
  have hg' : (Rng.mk env.np_random.stream (env.np_random.idx + 1)).Valid := hg
  rcases hcase with ⟨hd, hs, hb⟩ | ⟨hd, hs, hb⟩
  · subst hd
    rw [step_some_char env a 0 ha hs]
    simp only [hb]
    by_cases hu : env.np_random.stream env.np_random.idx <
        (env.transition 0 ⟨a.toNat % 2, Nat.mod_lt _ (by omega)⟩).1
    · rw [if_pos hu]
      rw [if_neg (by decide : ¬((0 : Fin 2) = 1))]
      refine ⟨_, _, rfl, hg', ?_, ?_, ?_⟩
      · exact ⟨hT, Or.inl ⟨rfl, rfl, rfl⟩⟩
      · intro h
        trivial
      · norm_num
    · rw [if_neg hu]
      rw [if_pos (rfl : (1 : Fin 2) = 1)]
      refine ⟨_, _, rfl, hg', ⟨hT, Or.inr ⟨Nat.le.refl, rfl, rfl⟩⟩, ?_, ?_⟩
      · intro h
        simp at h
      · norm_num
  · have hu : ¬ env.np_random.stream env.np_random.idx <
        (env.transition 1 ⟨a.toNat % 2, Nat.mod_lt _ (by omega)⟩).1 := by
      rw [hT, canonicalTransition_one]
      exact not_lt.mpr (hg env.np_random.idx).1
    rw [step_some_char env a 1 ha hs]
    simp only [hb]
    rw [if_neg hu]
    rw [if_pos (rfl : (1 : Fin 2) = 1)]
    refine ⟨_, _, rfl, hg', ?_, ?_, ?_⟩
    · refine ⟨hT, Or.inr ⟨?_, rfl, ?_⟩⟩
      · show 1 ≤ d + 1
        omega
      · show some (d - 1 + 1) = some (d + 1 - 1)
        congr 1
        omega
    · intro h
      simp at h
    · show decide (d - 1 = 0) = decide (d = 1)
      simp only [decide_eq_decide]
      omega

/-- `run` on a cons, when the step succeeds. -/
lemma run_cons_ok {env env' : SimpleMDP} {a : ℤ} {as : List ℤ} {out : StepOut}
    (hstep : env.step a = (.ok out, env')) :
    env.run (a :: as) = out :: env'.run as := by
  simp [SimpleMDP.run, hstep]

/-- `warnCount` on a cons. -/
lemma warnCount_cons (o : StepOut) (l : List StepOut) :
    warnCount (o :: l) = (if o.warned then 1 else 0) + warnCount l := by
  simp only [warnCount, List.filter_cons]
  cases h : o.warned <;> simp [h, Nat.add_comm]

/-- Along any run from a state satisfying the invariant, the warning flags
follow `expectedWarns` (a call warns iff exactly one `done = true` call
precedes it in the episode), and at most one warning fires in total. -/
lemma run_warn_char (acts : List ℤ) : ∀ (env : SimpleMDP) (d : ℕ),
    (∀ a ∈ acts, 0 ≤ a ∧ a < 2) → env.np_random.Valid → EpisodeInv env d →
    ((env.run acts).map (fun o => o.warned)
        = expectedWarns d ((env.run acts).map (fun o => o.done)) ∧
     warnCount (env.run acts) ≤ if 2 ≤ d then 0 else 1) := by
  induction acts with
  | nil =>
    intro env d _ _ _
    constructor
    · simp [SimpleMDP.run, expectedWarns]
    · have : warnCount (env.run []) = 0 := by simp [SimpleMDP.run, warnCount]
      rw [this]
      split <;> omega
  | cons a as ih =>
    intro env d hacts hg hinv
    obtain ⟨out, env', hstep, hg', hinv', hd0, hw⟩ :=
      step_inv env d a (hacts a (List.mem_cons_self a as)) hg hinv
    have hrun := @run_cons_ok env env' a as out hstep
    obtain ⟨ihmap, ihcount⟩ := ih env' (if out.done then d + 1 else d)
      (fun x hx => hacts x (List.mem_cons_of_mem a hx)) hg' hinv'
    constructor
    · rw [hrun, List.map_cons, List.map_cons, expectedWarns, hw, ihmap]
    · rw [hrun, warnCount_cons]
      cases hdone : out.done with
      | false =>
        have hd := hd0 hdone
        subst hd
        rw [hdone] at ihcount
        rw [hw]
        norm_num at ihcount ⊢
        omega
      | true =>
        rw [hdone] at ihcount
        rw [hw]
        by_cases hd1 : d = 1
        · subst hd1
          rw [decide_eq_true rfl]
          norm_num at ihcount ⊢
          omega
        · rw [decide_eq_false hd1]
          norm_num at ihcount ⊢
          split at ihcount <;> split <;> omega

/-! ### Claim theorems -/

/-- **C5.** Calling `step` before any `reset` (i.e. while `state` is still
`None`) fails with the not-reset error (the `assert` on source line 81),
and the engine is returned exactly as it was: `current_state` and the
post-terminal counter are untouched. -/
theorem C5_step_before_reset_fails_without_mutation
    (env : SimpleMDP) (a : ℤ) (ha : 0 ≤ a ∧ a < 2) (h : env.state = none) :
    env.step a = (.error .notReset, env) := by
  simp [SimpleMDP.step, ha.1, ha.2, h]

/-- Witness for C5: the freshly constructed engine has `state = none`, and
`step 0` on it fails with the not-reset error, engine unchanged. -/
theorem C5_witness :
    (SimpleMDP.init ⟨fun _ => 0, 0⟩).state = none ∧
    (SimpleMDP.init ⟨fun _ => 0, 0⟩).step 0 =
      (.error .notReset, SimpleMDP.init ⟨fun _ => 0, 0⟩) :=
  ⟨rfl, C5_step_before_reset_fails_without_mutation _ 0 (by omega) rfl⟩

/-- **C6.** Calling `step` with an action outside `{0, 1}` fails with the
invalid-action error (the `assert` on source line 80), and the engine is
returned exactly as it was: no partial mutation of `current_state` or the
post-terminal counter. -/
theorem C6_invalid_action_fails_without_mutation
    (env : SimpleMDP) (a : ℤ) (ha : ¬(0 ≤ a ∧ a < 2)) :
    env.step a = (.error .invalidAction, env) := by
  simp only [SimpleMDP.step, if_neg ha]

/-- Witness for C6: action 5 is outside the action space and is rejected
without mutation, even on a running engine. -/
theorem C6_witness :
    ¬((0:ℤ) ≤ 5 ∧ (5:ℤ) < 2) ∧
    ((SimpleMDP.init ⟨fun _ => 0, 0⟩).reset (fun _ => ⟨fun _ => 0, 0⟩)
        none).2.step 5 =
      (.error .invalidAction,
       ((SimpleMDP.init ⟨fun _ => 0, 0⟩).reset (fun _ => ⟨fun _ => 0, 0⟩)
        none).2) :=
  ⟨by omega, C6_invalid_action_fails_without_mutation _ 5 (by omega)⟩

/-- **C8.** `reset` from any engine state sets the state to the start state
0, clears the post-terminal counter, and returns the start observation 0;
a further consecutive `reset` returns the same start observation whatever
seed is supplied. -/
theorem C8_reset_clears_episode_state
    (env : SimpleMDP) (sd : ℕ → Rng) (seed : Option ℕ) :
    (env.reset sd seed).1 = 0 ∧
    (env.reset sd seed).2.state = some 0 ∧
    (env.reset sd seed).2.steps_beyond_done = none ∧
    ∀ (sd2 : ℕ → Rng) (seed2 : Option ℕ),
      ((env.reset sd seed).2.reset sd2 seed2).1 = 0 :=
  ⟨rfl, rfl, rfl, fun _ _ => rfl⟩

/-- **C9.** Neither `step` (in any branch, including the failing asserts)
nor `reset` writes the model fields: the transition tensor, the `P` dict
and the reward matrix of the successor engine are those of the caller. -/
theorem C9_step_reset_preserve_model
    (env : SimpleMDP) (a : ℤ) (sd : ℕ → Rng) (seed : Option ℕ) :
    (env.step a).2.transition = env.transition ∧
    (env.step a).2.P = env.P ∧
    (env.step a).2.reward = env.reward ∧
    (env.reset sd seed).2.transition = env.transition ∧
    (env.reset sd seed).2.P = env.P ∧
    (env.reset sd seed).2.reward = env.reward := by
  obtain ⟨h1, h2, h3⟩ := step_preserves_model env a
  exact ⟨h1, h2, h3, rfl, rfl, rfl⟩

/-- **C7.** Determinism under a fixed seed: `reset(seed=K)` followed by an
action sequence, then `reset(seed=K)` again followed by the same action
sequence, produces the identical observation/reward/done sequence (the
engine's only sources of change are the seeded generator and the episode
fields, which `reset` reinitializes identically). -/
theorem C7_determinism_under_fixed_seed
    (e : SimpleMDP) (sd : ℕ → Rng) (K : ℕ) (acts : List ℤ) :
    (((((e.reset sd (some K)).2.runEnv acts).reset sd (some K)).2).run
        acts).map (fun o => (o.obs, o.reward, o.done)) =
      (((e.reset sd (some K)).2).run acts).map
        (fun o => (o.obs, o.reward, o.done)) := by
  obtain ⟨h1, h2, h3⟩ := runEnv_preserves_model acts (e.reset sd (some K)).2
  have hsame : (((e.reset sd (some K)).2.runEnv acts).reset sd (some K)).2 =
      (e.reset sd (some K)).2 := by
    apply SimpleMDP.ext
    · exact h1
    · exact h2
    · exact h3
    · rfl
    · rfl
    · rfl
  rw [hsame]

/-- **C3.** Once the current state is the terminal state 1: any `step` call
with an action in the action space returns reward 0.0, `done = True` and
observation 1, keeps the state in 1, sets the post-terminal counter to 0
when it was unset (the call that reaches termination), and increments it on
every call issued while it is already set (the second and later
post-terminal calls). -/
theorem C3_post_terminal_zero_reward_and_counter
    (env : SimpleMDP) (a : ℤ) (ha : 0 ≤ a ∧ a < 2)
    (hT : env.transition = canonicalTransition)
    (hR : env.reward = canonicalReward)
    (hs : env.state = some 1) (hg : env.np_random.Valid) :
    ∃ out env', env.step a = (.ok out, env') ∧
      out.reward = 0 ∧ out.done = true ∧ out.obs = 1 ∧
      env'.state = some 1 ∧
      (env.steps_beyond_done = none → env'.steps_beyond_done = some 0) ∧
      (∀ k, env.steps_beyond_done = some k →
        env'.steps_beyond_done = some (k + 1)) := by
  have hu : ¬ env.np_random.stream env.np_random.idx <
      (env.transition 1 ⟨a.toNat % 2, Nat.mod_lt _ (by omega)⟩).1 := by
    rw [hT, canonicalTransition_one]
    exact not_lt.mpr (hg env.np_random.idx).1
  rw [step_some_char env a 1 ha hs]
  cases hb : env.steps_beyond_done with
  | none =>
    simp only [hb]
    rw [if_neg hu, if_pos (rfl : (1 : Fin 2) = 1)]
    refine ⟨_, _, rfl, ?_, rfl, rfl, rfl, fun _ => rfl, ?_⟩
    · show env.reward 1 _ = 0
      rw [hR]
      exact canonicalReward_one _
    · intro k hk
      simp at hk
  | some k =>
    simp only [hb]
    rw [if_neg hu, if_pos (rfl : (1 : Fin 2) = 1)]
    refine ⟨_, _, rfl, rfl, rfl, rfl, rfl, ?_, ?_⟩
    · intro hnone
      simp at hnone
    · intro k2 hk2
      injection hk2 with h
      rw [h]

/-- Witness for C3: stepping the engine parked in the terminal state with
counter 0 yields reward 0, `done`, observation 1, state still 1, and the
counter incremented to 1. -/
theorem C3_witness :
    ((0:ℤ) ≤ 0 ∧ (0:ℤ) < 2) ∧ termEnvHalf.state = some 1 ∧
    Rng.Valid termEnvHalf.np_random ∧
    (∃ out env', termEnvHalf.step 0 = (.ok out, env') ∧
      out.reward = 0 ∧ out.done = true ∧ out.obs = 1 ∧
      env'.state = some 1 ∧
      (termEnvHalf.steps_beyond_done = none →
        env'.steps_beyond_done = some 0) ∧
      (∀ k, termEnvHalf.steps_beyond_done = some k →
        env'.steps_beyond_done = some (k + 1))) :=
  ⟨⟨by omega, by omega⟩, rfl, rngHalf_valid,
   C3_post_terminal_zero_reward_and_counter termEnvHalf 0 ⟨by omega, by omega⟩
     rfl rfl rfl rngHalf_valid⟩

/-- **C10.** The terminal state is absorbing: row 1 of the hardcoded tensor
puts all probability mass on state 1 for both actions, and a `step` from
state 1 (with a valid generator) lands in state 1 again with `done = True`. -/
theorem C10_terminal_state_absorbing
    (env : SimpleMDP) (a : ℤ) (ha : 0 ≤ a ∧ a < 2)
    (hT : env.transition = canonicalTransition)
    (hs : env.state = some 1) (hg : env.np_random.Valid) :
    (∀ act : Fin 2, canonicalTransition 1 act = (0, 1)) ∧
    ∃ out env', env.step a = (.ok out, env') ∧
      env'.state = some 1 ∧ out.done = true ∧ out.obs = 1 := by
  refine ⟨fun act => canonicalTransition_one act, ?_⟩
  have hu : ¬ env.np_random.stream env.np_random.idx <
      (env.transition 1 ⟨a.toNat % 2, Nat.mod_lt _ (by omega)⟩).1 := by
    rw [hT, canonicalTransition_one]
    exact not_lt.mpr (hg env.np_random.idx).1
  rw [step_some_char env a 1 ha hs]
  cases hb : env.steps_beyond_done with
  | none =>
    simp only [hb]
    rw [if_neg hu, if_pos (rfl : (1 : Fin 2) = 1)]
    exact ⟨_, _, rfl, rfl, rfl, rfl⟩
  | some k =>
    simp only [hb]
    rw [if_neg hu, if_pos (rfl : (1 : Fin 2) = 1)]
    exact ⟨_, _, rfl, rfl, rfl, rfl⟩

/-- Witness for C10: concrete instance of the absorbing-terminal theorem. -/
theorem C10_witness :
    ((0:ℤ) ≤ 1 ∧ (1:ℤ) < 2) ∧ termEnvHalf.state = some 1 ∧
    Rng.Valid termEnvHalf.np_random ∧
    ((∀ act : Fin 2, canonicalTransition 1 act = (0, 1)) ∧
     ∃ out env', termEnvHalf.step 1 = (.ok out, env') ∧
       env'.state = some 1 ∧ out.done = true ∧ out.obs = 1) :=
  ⟨⟨by omega, by omega⟩, rfl, rngHalf_valid,
   C10_terminal_state_absorbing termEnvHalf 1 ⟨by omega, by omega⟩
     rfl rfl rngHalf_valid⟩

/-- **C4.** Within a single episode — a seeded `reset` followed by a run of
action-space actions — the warning flags are exactly `expectedWarns 0` of
the done flags: a call warns iff exactly one `done = true` call precedes it
(i.e. it is the second post-terminal call), so no warning on the
terminal-reaching call nor on any later post-terminal call; in total the
warning fires at most once per episode. -/
theorem C4_post_terminal_warning_once
    (env0 : SimpleMDP) (sd : ℕ → Rng) (K : ℕ) (acts : List ℤ)
    (hT : env0.transition = canonicalTransition)
    (hacts : ∀ a ∈ acts, 0 ≤ a ∧ a < 2) (hg : (sd K).Valid) :
    (((env0.reset sd (some K)).2.run acts).map (fun o => o.warned)
        = expectedWarns 0
            (((env0.reset sd (some K)).2.run acts).map (fun o => o.done))) ∧
    warnCount ((env0.reset sd (some K)).2.run acts) ≤ 1 := by
  have hinv : EpisodeInv (env0.reset sd (some K)).2 0 :=
    ⟨hT, Or.inl ⟨rfl, rfl, rfl⟩⟩
  have hgv : ((env0.reset sd (some K)).2).np_random.Valid := hg
  obtain ⟨h1, h2⟩ :=
    run_warn_char acts (env0.reset sd (some K)).2 0 hacts hgv hinv
  have h3 : (if 2 ≤ 0 then (0:ℕ) else 1) = 1 := rfl
  rw [h3] at h2
  exact ⟨h1, h2⟩

/-- A generator whose every draw is 0.7 (so that, from state 0 under action
0, the sampled destination is state 1, since `¬(0.7 < 0.66)`). -/
def rng07 : Rng := ⟨fun _ => 7/10, 0⟩

lemma rng07_valid : rng07.Valid := fun _ => by norm_num [rng07]

/-- Witness for C4: a three-step episode whose draws are all 0.7, so the
first step reaches the terminal state and the second one warns. -/
theorem C4_witness :
    (SimpleMDP.init rng07).transition = canonicalTransition ∧
    (∀ a ∈ ([0, 0, 0] : List ℤ), 0 ≤ a ∧ a < 2) ∧
    Rng.Valid rng07 ∧
    ((((SimpleMDP.init rng07).reset (fun _ => rng07) (some 0)).2.run
        [0, 0, 0]).map (fun o => o.warned)
      = expectedWarns 0
          ((((SimpleMDP.init rng07).reset (fun _ => rng07)
              (some 0)).2.run [0, 0, 0]).map (fun o => o.done))) ∧
    warnCount (((SimpleMDP.init rng07).reset (fun _ => rng07)
        (some 0)).2.run [0, 0, 0]) ≤ 1 :=
  ⟨rfl, by norm_num, rng07_valid,
   (C4_post_terminal_warning_once _ _ 0 _ rfl (by norm_num) rng07_valid).1,
   (C4_post_terminal_warning_once _ _ 0 _ rfl (by norm_num) rng07_valid).2⟩

/-- The engine right after `reset()` when the next uniform draw is 0.7. -/
def envDraw07 : SimpleMDP :=
  ((SimpleMDP.init rng07).reset (fun _ => rng07) (some 0)).2

/-- The engine right after `reset()` when the next uniform draw is 0.5. -/
def envDraw05 : SimpleMDP :=
  ((SimpleMDP.init rngHalf).reset (fun _ => rngHalf) (some 0)).2

/-- **C1 (evaluation at the failing input).**  `step(0)` from the start
state samples the destination from `[0.66, 0.34]`.  With draw 0.7 the
destination is state 1 and the call returns reward `0.0`: line 87 of the
source reads `self.reward[self.state][action]` *after* line 83 has
overwritten `self.state`, so the reward is indexed by the post-transition
state.  With draw 0.5 the destination is state 0 and the very same call
returns `0.122`.  This contradicts the claim (reward `R[s][action]` of the
pre-transition state, independent of the destination), and it contradicts
the engine's own `P` table, which declares reward 0.122 for the sampled
transition `0 → 1` under action 0, and its reward matrix entry
`R[0][0] = 0.122`. -/
theorem C1_reward_uses_post_transition_state :
    (envDraw07.step 0).1 = .ok ⟨1, 0, true, false⟩ ∧
    (envDraw05.step 0).1 = .ok ⟨0, 122/1000, false, false⟩ ∧
    envDraw07.P 0 0 =
      [(66/100, 0, 122/1000, false), (34/100, 1, 122/1000, true)] ∧
    envDraw07.reward 0 0 = 122/1000 ∧
    (0 : ℚ) ≠ 122/1000 := by
  refine ⟨?_, ?_, rfl, rfl, by norm_num⟩ <;>
    norm_num [envDraw07, envDraw05, rng07, rngHalf, SimpleMDP.step,
      SimpleMDP.reset, SimpleMDP.init, choice2, Rng.next,
      canonicalTransition, canonicalReward]

/-- **C2 counterexample.** `SimpleMDP.__init__` takes no transition model
and performs no validation at all: construction is the constant engine
below.  It cannot fail, and no `ModelInvalidError` (nor any other
construction-time failure) exists in the source — refuting the claim that
construction validates the rows of the transition model and fails on an
invalid one. -/
theorem C2_counterexample_construction_never_validates :
    SimpleMDP.init rngHalf =
      { transition := canonicalTransition, P := canonicalP,
        reward := canonicalReward, state := none,
        steps_beyond_done := none, np_random := rngHalf } := rfl

/-- **C2 amended.** Construction takes no model parameters, performs no
validation and always succeeds with the hardcoded model; that hardcoded
transition tensor does satisfy the probability-distribution invariant:
every row `P[s][a][·]` has nonnegative entries summing to exactly 1. -/
theorem C2_amended_hardcoded_rows_valid (g : Rng) (s a : Fin 2) :
    (SimpleMDP.init g).transition = canonicalTransition ∧
    0 ≤ ((SimpleMDP.init g).transition s a).1 ∧
    0 ≤ ((SimpleMDP.init g).transition s a).2 ∧
    ((SimpleMDP.init g).transition s a).1 +
      ((SimpleMDP.init g).transition s a).2 = 1 := by
  refine ⟨rfl, ?_, ?_, ?_⟩ <;>
    fin_cases s <;> fin_cases a <;>
      norm_num [SimpleMDP.init, canonicalTransition]

/-- Concrete three-call trace with all draws 0.7: the first call reaches
the terminal state (no warning, counter set to 0), the second call — the
second post-terminal call in the spec's counting — warns, the third does
not; one warning in total. -/
lemma run07_warn_pattern :
    (envDraw07.run [0, 0, 0]).map (fun o => o.warned) =
      [false, true, false] ∧
    warnCount (envDraw07.run [0, 0, 0]) = 1 := by
  norm_num [envDraw07, rng07, SimpleMDP.run, SimpleMDP.step, SimpleMDP.reset,
    SimpleMDP.init, choice2, Rng.next, canonicalTransition, canonicalReward,
    warnCount]

end MellowmaxSoftmax
